import Mathlib

/-!
Verification development for the Minecraft log reader (`main.py`).

The script discovers `YYYY-MM-DD-N.log.gz` files in a configured directory,
decompresses each, splits the decoded text into log entries with
`LOG_ENTRY_FORMAT.findall`, classifies each entry by an ordered chain of
regular expressions (join / leave / advancement / generic death fallback with
a denylist / chat message), accumulates the typed events, and rewrites four
CSV files after each processed source file.

This file is a shallow embedding of that script.  The regular expressions of
the source are embedded as deterministic parsers over `List Char`; all the
components of each regex are fixed-width except the greedy pieces
(`\w{1,16}`, `.*`, `[^\]]+`, `\d+`), and each greedy piece is followed either
by nothing or by a literal whose first character can never be matched by the
piece itself, so greedy matching with backtracking coincides with taking the
maximal run, which is what the parsers below do.  Machine-level concerns
(gzip, utf-8, the OS) are modelled by explicit state records, following the
documented behaviour of the Python standard library where the script calls
into it.
-/

namespace MC

/-! ### Character classes -/

/-- Python's `\w` on the ASCII range: letters, digits and underscore.
(The log lines the script recognises are ASCII; we embed the ASCII core of
the Unicode-aware `\w`.) -/
def isWordChar (c : Char) : Bool := c.isAlphanum || c = '_'

/-! ### Primitive parsers -/

/-- Consume an exact literal, returning the remainder. -/
def expectLit : List Char → List Char → Option (List Char)
  | [], cs => some cs
  | _ :: _, [] => none
  | l :: ls, c :: cs => if c = l then expectLit ls cs else none

/-- Regex `.` : any single character except a newline. -/
def expectAny : List Char → Option (List Char)
  | [] => none
  | c :: cs => if c = '\n' then none else some cs

/-- Maximal run of `\w` characters (and the remainder). -/
def takeWordRun : List Char → List Char × List Char
  | [] => ([], [])
  | c :: cs =>
    if isWordChar c then
      let pr := takeWordRun cs
      (c :: pr.1, pr.2)
    else ([], c :: cs)

/-- Regex `(?P<player>\w{1,16})`.  In every pattern of the script the group
is followed by a character that is never a word character (a space or `>`),
so the greedy match succeeds exactly when the maximal word run has length
1–16 and is then that run. -/
def parsePlayer (cs : List Char) : Option (List Char × List Char) :=
  let pr := takeWordRun cs
  if 1 ≤ pr.1.length ∧ pr.1.length ≤ 16 then some (pr.1, pr.2) else none

/-! ### The shared line header

All five classifier regexes begin with
`\[(?P<time>\d{2}:\d{2}:\d{2})\] \[Server thread\/INFO\] \[net.minecraft.server.dedicated.DedicatedServer\]: `
where the dots inside the logger name are the regex `.` (any character but
newline).  Every component is fixed-width, so the header always consumes
exactly the same number of characters. -/

def litServer : List Char := ("] [Server thread/INFO] [net").data
def litMinecraft : List Char := ("minecraft").data
def litSrv : List Char := ("server").data
def litDedicated : List Char := ("dedicated").data
def litDedicatedServer : List Char := ("DedicatedServer]: ").data

/-- Parse the shared header, returning the captured `time` group (the eight
characters `HH:MM:SS`) and the remainder of the entry. -/
def parseHeader (cs : List Char) : Option (List Char × List Char) :=
  match cs with
  | '[' :: h1 :: h2 :: ':' :: m1 :: m2 :: ':' :: s1 :: s2 :: rest =>
    if h1.isDigit ∧ h2.isDigit ∧ m1.isDigit ∧ m2.isDigit ∧ s1.isDigit ∧ s2.isDigit then
      match expectLit litServer rest with
      | none => none
      | some r1 =>
        match expectAny r1 with
        | none => none
        | some r2 =>
          match expectLit litMinecraft r2 with
          | none => none
          | some r3 =>
            match expectAny r3 with
            | none => none
            | some r4 =>
              match expectLit litSrv r4 with
              | none => none
              | some r5 =>
                match expectAny r5 with
                | none => none
                | some r6 =>
                  match expectLit litDedicated r6 with
                  | none => none
                  | some r7 =>
                    match expectAny r7 with
                    | none => none
                    | some r8 =>
                      match expectLit litDedicatedServer r8 with
                      | none => none
                      | some r9 => some ([h1, h2, ':', m1, m2, ':', s1, s2], r9)
    else none
  | _ => none

/-! ### The five classifier patterns (`JOIN_FORMAT` … `MESSAGE_FORMAT`) -/

def litJoined : List Char := (" joined the game").data
def litLeft : List Char := (" left the game").data
def litHas : List Char := (" has ").data
def litMade : List Char := ("made the advancement").data
def litCompleted : List Char := ("completed the challenge").data
def litReached : List Char := ("reached the goal").data
def litSpaceBracket : List Char := (" [").data

/-- `JOIN_FORMAT.match`: returns the captured `(time, player)` groups. -/
def matchJoin (cs : List Char) : Option (List Char × List Char) :=
  match parseHeader cs with
  | none => none
  | some (t, r) =>
    match parsePlayer r with
    | none => none
    | some (p, r2) =>
      match expectLit litJoined r2 with
      | none => none
      | some _ => some (t, p)

/-- `LEAVE_FORMAT.match`: returns the captured `(time, player)` groups. -/
def matchLeave (cs : List Char) : Option (List Char × List Char) :=
  match parseHeader cs with
  | none => none
  | some (t, r) =>
    match parsePlayer r with
    | none => none
    | some (p, r2) =>
      match expectLit litLeft r2 with
      | none => none
      | some _ => some (t, p)

/-- Regex alternation `made the advancement|completed the challenge|reached the goal`. -/
def advKind (cs : List Char) : Option (List Char) :=
  match expectLit litMade cs with
  | some r => some r
  | none =>
    match expectLit litCompleted cs with
    | some r => some r
    | none => expectLit litReached cs

/-- `ADVANCEMENT_FORMAT.match`: returns `(time, player, advancement)`.
The `advancement` group is `[^\]]+` (greedy, followed by `\]`), i.e. the
maximal nonempty run of non-`]` characters followed by `]`. -/
def matchAdv (cs : List Char) : Option (List Char × List Char × List Char) :=
  match parseHeader cs with
  | none => none
  | some (t, r) =>
    match parsePlayer r with
    | none => none
    | some (p, r2) =>
      match expectLit litHas r2 with
      | none => none
      | some r3 =>
        match advKind r3 with
        | none => none
        | some r4 =>
          match expectLit litSpaceBracket r4 with
          | none => none
          | some r5 =>
            let adv := r5.takeWhile (fun c => c ≠ ']')
            let r6 := r5.dropWhile (fun c => c ≠ ']')
            if 1 ≤ adv.length then
              match r6 with
              | ']' :: _ => some (t, p, adv)
              | _ => none
            else none

/-- `DEATH_FORMAT.match`: the generic "player did X" fallback; returns
`(time, player, cause)`.  The `cause` group is `.*`, which stops at a
newline (entries produced by the splitter never contain one). -/
def matchDeath (cs : List Char) : Option (List Char × List Char × List Char) :=
  match parseHeader cs with
  | none => none
  | some (t, r) =>
    match parsePlayer r with
    | none => none
    | some (p, r2) =>
      match r2 with
      | ' ' :: r3 => some (t, p, r3.takeWhile (fun c => c ≠ '\n'))
      | _ => none

/-- `MESSAGE_FORMAT.match`: chat line `<player> message`; returns
`(time, player, message)`. -/
def matchMessage (cs : List Char) : Option (List Char × List Char × List Char) :=
  match parseHeader cs with
  | none => none
  | some (t, r) =>
    match r with
    | '<' :: r1 =>
      match parsePlayer r1 with
      | none => none
      | some (p, r2) =>
        match expectLit ('>' :: [' ']) r2 with
        | none => none
        | some r3 => some (t, p, r3.takeWhile (fun c => c ≠ '\n'))
    | _ => none

/-! ### Dates, times and events -/

structure Date where
  year : Nat
  month : Nat
  day : Nat
deriving DecidableEq

structure Time where
  hour : Nat
  minute : Nat
  second : Nat
deriving DecidableEq

/-- `datetime.combine(log_date, t)`. -/
structure DateTime where
  date : Date
  time : Time
deriving DecidableEq

def digitVal (c : Char) : Nat := c.toNat - 48

/-- `datetime.time.fromisoformat` on the eight captured characters
`HH:MM:SS`: the digits are re-read and the field ranges are validated;
an out-of-range value raises `ValueError`, modelled as `none`. -/
def timeFromIso : List Char → Option Time
  | [h1, h2, c1, m1, m2, c2, s1, s2] =>
    if c1 = ':' ∧ c2 = ':' ∧ h1.isDigit ∧ h2.isDigit ∧ m1.isDigit ∧ m2.isDigit ∧
        s1.isDigit ∧ s2.isDigit then
      let h := 10 * digitVal h1 + digitVal h2
      let m := 10 * digitVal m1 + digitVal m2
      let s := 10 * digitVal s1 + digitVal s2
      if h ≤ 23 ∧ m ≤ 59 ∧ s ≤ 59 then some ⟨h, m, s⟩ else none
    else none
  | _ => none

/-- The four event named tuples of the script, as a tagged union. -/
inductive LogEvent where
  | playerJoinLeave (time : DateTime) (player : String) (type : String)
  | playerAdvancement (time : DateTime) (player : String) (advancement : String)
  | playerDeath (time : DateTime) (player : String) (cause : String)
  | playerMessage (time : DateTime) (player : String) (message : String)
deriving DecidableEq

/-- `NOT_PLAYERS`: leading tokens that are definitely not player names. -/
def NOT_PLAYERS : List String :=
  ["Starting", "Loading", "Default", "Generating", "Preparing", "Done",
   "Successfully", "Saved", "Stopping", "There", "Added", "You", "Unknown",
   "Config", "Use"]

/-- The classification chain of the per-entry loop body (`main.py` lines
71–119): each pattern is tried in order; the first match wins.  A match
whose `time` group is out of range makes `time.fromisoformat` raise
`ValueError` (modelled as `Except.error`), except in the death branch,
where the denylist check `continue`s before the time is parsed. -/
def classify (entry : List Char) (log_date : Date) : Except String (Option LogEvent) :=
  match matchJoin entry with
  | some (t, p) =>
    match timeFromIso t with
    | some tv => .ok (some (.playerJoinLeave ⟨log_date, tv⟩ (String.mk p) "join"))
    | none => .error "ValueError"
  | none =>
  match matchLeave entry with
  | some (t, p) =>
    match timeFromIso t with
    | some tv => .ok (some (.playerJoinLeave ⟨log_date, tv⟩ (String.mk p) "leave"))
    | none => .error "ValueError"
  | none =>
  match matchAdv entry with
  | some (t, p, adv) =>
    match timeFromIso t with
    | some tv => .ok (some (.playerAdvancement ⟨log_date, tv⟩ (String.mk p) (String.mk adv)))
    | none => .error "ValueError"
  | none =>
  match matchDeath entry with
  | some (t, p, cause) =>
    if String.mk p ∈ NOT_PLAYERS then .ok none
    else
      match timeFromIso t with
      | some tv => .ok (some (.playerDeath ⟨log_date, tv⟩ (String.mk p) (String.mk cause)))
      | none => .error "ValueError"
  | none =>
  match matchMessage entry with
  | some (t, p, msg) =>
    match timeFromIso t with
    | some tv => .ok (some (.playerMessage ⟨log_date, tv⟩ (String.mk p) (String.mk msg)))
    | none => .error "ValueError"
  | none => .ok none

example :
    classify ("[14:22:01] [Server thread/INFO] [net.minecraft.server.dedicated.DedicatedServer]: Steve joined the game").data ⟨2024, 3, 5⟩
      = .ok (some (.playerJoinLeave ⟨⟨2024, 3, 5⟩, ⟨14, 22, 1⟩⟩ "Steve" "join")) := rfl

example :
    classify ("[14:22:01] [Server thread/INFO] [net.minecraft.server.dedicated.DedicatedServer]: <Steve> hello world").data ⟨2024, 3, 5⟩
      = .ok (some (.playerMessage ⟨⟨2024, 3, 5⟩, ⟨14, 22, 1⟩⟩ "Steve" "hello world")) := rfl

example :
    classify ("[14:22:01] [Server thread/INFO] [net.minecraft.server.dedicated.DedicatedServer]: Loading dimension data").data ⟨2024, 3, 5⟩
      = .ok none := rfl

example :
    classify ("[14:22:01] [Server thread/INFO] [net.minecraft.server.dedicated.DedicatedServer]: Steve has made the advancement [Stone Age]").data ⟨2024, 3, 5⟩
      = .ok (some (.playerAdvancement ⟨⟨2024, 3, 5⟩, ⟨14, 22, 1⟩⟩ "Steve" "Stone Age")) := rfl

example :
    classify ("[25:22:01] [Server thread/INFO] [net.minecraft.server.dedicated.DedicatedServer]: Steve joined the game").data ⟨2024, 3, 5⟩
      = .error "ValueError" := rfl

/-! ### Entry splitting: `LOG_ENTRY_FORMAT.findall(log)`

`LOG_ENTRY_FORMAT = re.compile(r'\n(\[\d{2}:\d{2}:\d{2}\] .*)')`.

A match is a newline followed by `[HH:MM:SS] ` and then `.*`; since `[`,
digits, `:`, `]`, the space and `.` all exclude the newline character, the
whole match after the `\n` lies within a single physical line, so the
candidate at a `\n` is exactly the following line. -/

/-- Does a physical line begin with the `\[\d{2}:\d{2}:\d{2}\] ` marker? -/
def markerTest : List Char → Bool
  | c0 :: c1 :: c2 :: c3 :: c4 :: c5 :: c6 :: c7 :: c8 :: c9 :: c10 :: _ =>
    decide (c0 = '[' ∧ c1.isDigit ∧ c2.isDigit ∧ c3 = ':' ∧ c4.isDigit ∧ c5.isDigit ∧
      c6 = ':' ∧ c7.isDigit ∧ c8.isDigit ∧ c9 = ']' ∧ c10 = ' ')
  | _ => false

/-- Attempt the bracket-marker match right after a `\n`: `cs` is the text
following the newline.  On success the captured group is the whole physical
line (`\[\d{2}:\d{2}:\d{2}\] ` followed by `.*`), and the match ends where
that line ends. -/
def matchMarker (cs : List Char) : Option (List Char × List Char) :=
  if markerTest (cs.takeWhile (fun c => c ≠ '\n'))
  then some (cs.takeWhile (fun c => c ≠ '\n'), cs.dropWhile (fun c => c ≠ '\n'))
  else none

/-- `LOG_ENTRY_FORMAT.findall(log)`: scan the text and collect the capture
at every newline where the marker matches.  `re.findall` returns
non-overlapping matches; since every match begins with `\n` and contains no
other `\n`, no match can begin strictly inside another one, so advancing by
a single character after a successful match is equivalent to advancing past
the whole match. -/
def findEntries : List Char → List (List Char)
  | [] => []
  | c :: rest =>
    if c = '\n' then
      match matchMarker rest with
      | some p => p.1 :: findEntries rest
      | none => findEntries rest
    else findEntries rest

/-- Split a character list at newlines (Python's `text.split('\n')`):
always returns one more piece than there are newlines. -/
def splitNl : List Char → List (List Char)
  | [] => [[]]
  | c :: rest =>
    if c = '\n' then [] :: splitNl rest
    else
      match splitNl rest with
      | [] => [[c]]
      | l :: ls => (c :: l) :: ls

/-- The pieces of `splitNl` that come after the first newline. -/
def splitNlAfter : List Char → List (List Char)
  | [] => []
  | _ :: rest => splitNl rest

theorem splitNl_eq_take_drop (cs : List Char) :
    splitNl cs =
      cs.takeWhile (fun c => c ≠ '\n') :: splitNlAfter (cs.dropWhile (fun c => c ≠ '\n')) := by
  induction cs with
  | nil => rfl
  | cons c rest ih =>
    by_cases h : c = '\n'
    · subst h
      simp [splitNl, List.takeWhile, List.dropWhile, splitNlAfter]
    · simp only [splitNl, if_neg h, List.takeWhile, List.dropWhile]
      rw [ih]
      simp [h]

theorem tail_splitNl (cs : List Char) :
    (splitNl cs).tail = splitNlAfter (cs.dropWhile (fun c => c ≠ '\n')) := by
  rw [splitNl_eq_take_drop]
  rfl

/-- Unfolding `findEntries` at a newline. -/
theorem findEntries_cons_nl (rest : List Char) :
    findEntries ('\n' :: rest) =
      if markerTest (rest.takeWhile (fun c => c ≠ '\n'))
      then rest.takeWhile (fun c => c ≠ '\n') :: findEntries rest
      else findEntries rest := by
  show (if ('\n' : Char) = '\n' then
      match matchMarker rest with
      | some p => p.1 :: findEntries rest
      | none => findEntries rest
    else findEntries rest) = _
  rw [if_pos rfl]
  unfold matchMarker
  by_cases hm : markerTest (rest.takeWhile (fun c => c ≠ '\n'))
  · rw [if_pos hm, if_pos hm]
  · rw [if_neg hm, if_neg hm]

/-- The characterization of the split (the amended form of the spec's
claim): the entries are exactly the physical lines that follow a newline
and begin with the `[HH:MM:SS] ` marker — each entry consists of that single
line only; continuation lines are neither attached nor emitted. -/
theorem findEntries_characterization (cs : List Char) :
    findEntries cs = ((splitNl cs).tail).filter markerTest := by
  induction cs with
  | nil => rfl
  | cons c rest ih =>
    rw [tail_splitNl]
    by_cases h : c = '\n'
    · subst h
      have hdrop : List.dropWhile (fun c => decide (c ≠ '\n')) ('\n' :: rest) = '\n' :: rest := by
        simp [List.dropWhile]
      rw [hdrop, findEntries_cons_nl]
      show _ = List.filter markerTest (splitNl rest)
      rw [splitNl_eq_take_drop rest]
      by_cases hm : markerTest (rest.takeWhile (fun c => c ≠ '\n'))
      · rw [if_pos hm, List.filter_cons_of_pos hm, ih, tail_splitNl]
      · rw [if_neg hm, List.filter_cons_of_neg (by simpa using hm), ih, tail_splitNl]
    · have hdrop : List.dropWhile (fun c => decide (c ≠ '\n')) (c :: rest) =
          List.dropWhile (fun c => decide (c ≠ '\n')) rest := by
        simp [List.dropWhile, h]
      have hfe : findEntries (c :: rest) = findEntries rest := by
        show (if c = '\n' then
            match matchMarker rest with
            | some p => p.1 :: findEntries rest
            | none => findEntries rest
          else findEntries rest) = _
        rw [if_neg h]
      rw [hdrop, hfe, ih, tail_splitNl]

/-! ### Shape lemmas for the classifier patterns -/

theorem expectLit_append (l r : List Char) : expectLit l (l ++ r) = some r := by
  induction l with
  | nil => rfl
  | cons c ls ih => simp [expectLit, ih]

theorem expectLit_self (l : List Char) : expectLit l l = some [] := by
  have h := expectLit_append l []
  rwa [List.append_nil] at h

/-- The full header text, dots included. -/
def headerTail : List Char :=
  ("] [Server thread/INFO] [net.minecraft.server.dedicated.DedicatedServer]: ").data

theorem parseHeader_shape (h1 h2 m1 m2 s1 s2 : Char) (rest : List Char)
    (hd : h1.isDigit ∧ h2.isDigit ∧ m1.isDigit ∧ m2.isDigit ∧ s1.isDigit ∧ s2.isDigit) :
    parseHeader ('[' :: h1 :: h2 :: ':' :: m1 :: m2 :: ':' :: s1 :: s2 :: (headerTail ++ rest))
      = some ([h1, h2, ':', m1, m2, ':', s1, s2], rest) := by
  have hsplit : headerTail ++ rest =
      litServer ++ ('.' :: (litMinecraft ++ ('.' :: (litSrv ++ ('.' ::
        (litDedicated ++ ('.' :: (litDedicatedServer ++ rest)))))))) := rfl
  rw [hsplit]
  simp only [parseHeader]
  rw [if_pos hd]
  simp [expectLit_append, expectAny]

/-- The head of a list is not a word character (vacuously true of `[]`). -/
def headNotWord : List Char → Bool
  | [] => true
  | c :: _ => !(isWordChar c)

theorem takeWordRun_append (p rest : List Char)
    (hp : ∀ c ∈ p, isWordChar c = true) (hrest : headNotWord rest = true) :
    takeWordRun (p ++ rest) = (p, rest) := by
  induction p with
  | nil =>
    cases rest with
    | nil => rfl
    | cons c r =>
      have hc : isWordChar c = false := by simpa [headNotWord] using hrest
      simp only [List.nil_append, takeWordRun]
      rw [if_neg (by simp [hc])]
  | cons c p' ih =>
    have hc : isWordChar c = true := hp c (by simp)
    simp only [List.cons_append, takeWordRun]
    rw [if_pos hc]
    have ih' := ih (fun x hx => hp x (by simp [hx]))
    rw [List.append_eq, ih']

theorem parsePlayer_append (p rest : List Char)
    (hp : ∀ c ∈ p, isWordChar c = true) (hl : 1 ≤ p.length ∧ p.length ≤ 16)
    (hrest : headNotWord rest = true) :
    parsePlayer (p ++ rest) = some (p, rest) := by
  unfold parsePlayer
  rw [takeWordRun_append p rest hp hrest]
  exact if_pos hl

theorem matchJoin_shape (h1 h2 m1 m2 s1 s2 : Char) (p : List Char)
    (hd : h1.isDigit ∧ h2.isDigit ∧ m1.isDigit ∧ m2.isDigit ∧ s1.isDigit ∧ s2.isDigit)
    (hp : ∀ c ∈ p, isWordChar c = true) (hl : 1 ≤ p.length ∧ p.length ≤ 16) :
    matchJoin ('[' :: h1 :: h2 :: ':' :: m1 :: m2 :: ':' :: s1 :: s2 ::
        (headerTail ++ (p ++ litJoined)))
      = some ([h1, h2, ':', m1, m2, ':', s1, s2], p) := by
  unfold matchJoin
  rw [parseHeader_shape h1 h2 m1 m2 s1 s2 (p ++ litJoined) hd]
  simp [parsePlayer_append p litJoined hp hl (by decide), expectLit_self]

/-- C6: a well-formed join entry (timestamp-prefixed server line ending in
`joined the game` with a 1–16 word-character player token) classifies, for
any supplied date, as a join `PlayerJoinLeave` whose `player` is the
captured token and whose `time` is `datetime.combine` of the supplied date
and the parsed time of the line. -/
theorem classify_join_entry (h1 h2 m1 m2 s1 s2 : Char) (p : List Char) (d : Date) (tv : Time)
    (hd : h1.isDigit ∧ h2.isDigit ∧ m1.isDigit ∧ m2.isDigit ∧ s1.isDigit ∧ s2.isDigit)
    (hp : ∀ c ∈ p, isWordChar c = true) (hl : 1 ≤ p.length ∧ p.length ≤ 16)
    (ht : timeFromIso [h1, h2, ':', m1, m2, ':', s1, s2] = some tv) :
    classify ('[' :: h1 :: h2 :: ':' :: m1 :: m2 :: ':' :: s1 :: s2 ::
        (headerTail ++ (p ++ litJoined))) d
      = .ok (some (.playerJoinLeave ⟨d, tv⟩ (String.mk p) "join")) := by
  unfold classify
  rw [matchJoin_shape h1 h2 m1 m2 s1 s2 p hd hp hl]
  simp [ht]

/-- Witness for C6: the spec's scenario line on date 2024-03-05. -/
theorem classify_join_entry_witness :
    classify ("[14:22:01] [Server thread/INFO] [net.minecraft.server.dedicated.DedicatedServer]: Steve joined the game").data ⟨2024, 3, 5⟩
      = .ok (some (.playerJoinLeave ⟨⟨2024, 3, 5⟩, ⟨14, 22, 1⟩⟩ "Steve" "join")) := by
  have h := classify_join_entry '1' '4' '2' '2' '0' '1' ("Steve").data ⟨2024, 3, 5⟩ ⟨14, 22, 1⟩
    (by decide) (by decide) (by decide) (by decide)
  exact h

/-! ### C5: the chat-message pattern and the generic death pattern never
both match.  Both regexes share the fixed-width header; after it
`MESSAGE_FORMAT` requires `<` while `DEATH_FORMAT` requires a word
character, and `<` is not a word character. -/

/-- C5: whenever `MESSAGE_FORMAT` matches a string, `DEATH_FORMAT` does
not, so no chat line can be classified as a death even though the death
pattern is tried first. -/
theorem message_excludes_death (cs : List Char)
    (h : (matchMessage cs).isSome = true) : matchDeath cs = none := by
  unfold matchMessage at h
  unfold matchDeath
  cases hh : parseHeader cs with
  | none => rw [hh] at h
  | some pr =>
    obtain ⟨t, r⟩ := pr
    rw [hh] at h
    dsimp only at h ⊢
    cases r with
    | nil => simp at h
    | cons c r1 =>
      by_cases hc : c = '<'
      · subst hc
        have hw : isWordChar '<' = false := by decide
        have htwr : takeWordRun ('<' :: r1) = ([], '<' :: r1) := by
          simp [takeWordRun, hw]
        have hpp : parsePlayer ('<' :: r1) = none := by
          simp [parsePlayer, htwr]
        rw [hpp]
      · exfalso
        split at h
        · rename_i heq
          injection heq with h1 h2
          exact hc h1
        · simp at h

/-- Witness for C5: a concrete chat line matches `MESSAGE_FORMAT` and is
rejected by `DEATH_FORMAT`. -/
theorem message_excludes_death_witness :
    (matchMessage ("[14:22:01] [Server thread/INFO] [net.minecraft.server.dedicated.DedicatedServer]: <Steve> hello").data).isSome = true ∧
    matchDeath ("[14:22:01] [Server thread/INFO] [net.minecraft.server.dedicated.DedicatedServer]: <Steve> hello").data = none :=
  ⟨rfl, message_excludes_death _ rfl⟩

/-! ### C9: the first entry of a file is dropped

`LOG_ENTRY_FORMAT` requires a `\n` *before* the marker, so a marker line at
position zero of the decoded text can never be matched. -/

theorem findEntries_cons_ne (c : Char) (rest : List Char) (hc : ¬ c = '\n') :
    findEntries (c :: rest) = findEntries rest := by
  show (if c = '\n' then
      match matchMarker rest with
      | some p => p.1 :: findEntries rest
      | none => findEntries rest
    else findEntries rest) = _
  rw [if_neg hc]

theorem findEntries_append_left (line s : List Char) (hnl : '\n' ∉ line) :
    findEntries (line ++ s) = findEntries s := by
  induction line with
  | nil => rfl
  | cons c l ih =>
    have hc : ¬ c = '\n' := fun hEq => hnl (by simp [hEq])
    rw [List.cons_append, findEntries_cons_ne c (l ++ s) hc]
    exact ih (fun hm => hnl (List.mem_cons_of_mem c hm))

/-- C9: a decoded text that begins with a `[HH:MM:SS] ` marker line at
position zero (not preceded by a newline) loses that first line entirely:
the split of `line ++ rest` equals the split of `rest`, so a well-formed,
classifiable first line never yields an event. -/
theorem first_entry_dropped (line s : List Char)
    (_hm : markerTest line = true) (hnl : '\n' ∉ line) :
    findEntries (line ++ s) = findEntries s :=
  findEntries_append_left line s hnl

/-- Witness for C9: a classifiable join line at position zero contributes
no entry; only the newline-preceded line of the remainder is found. -/
theorem first_entry_dropped_witness :
    markerTest ("[10:00:00] [Server thread/INFO] [net.minecraft.server.dedicated.DedicatedServer]: Steve joined the game").data = true ∧
    '\n' ∉ ("[10:00:00] [Server thread/INFO] [net.minecraft.server.dedicated.DedicatedServer]: Steve joined the game").data ∧
    findEntries (("[10:00:00] [Server thread/INFO] [net.minecraft.server.dedicated.DedicatedServer]: Steve joined the game").data
        ++ ("\n[10:00:01] [Server thread/INFO] [net.minecraft.server.dedicated.DedicatedServer]: Steve left the game").data)
      = findEntries ("\n[10:00:01] [Server thread/INFO] [net.minecraft.server.dedicated.DedicatedServer]: Steve left the game").data :=
  ⟨rfl, by decide, first_entry_dropped _ _ rfl (by decide)⟩

/-! ### C2: what the splitter does with continuation lines -/

/-- Modelled from the spec's wording of the splitter (§4.3): entries are
delimited by a newline followed by a timestamp-bracket marker, and an entry
extends from its marker to the next such delimiter, so continuation lines
(stack traces, wrapped text) stay attached to the *previous* entry.  Like
the code's splitter, an entry must be preceded by a newline.  `specTake`
collects an entry's characters up to the next delimiter. -/
def specTake : List Char → List Char × List Char
  | [] => ([], [])
  | c :: cs =>
    if c = '\n' ∧ markerTest cs then ([], c :: cs)
    else
      let pr := specTake cs
      (c :: pr.1, pr.2)

/-- Modelled from the spec's wording (§4.3): the multi-line-preserving
split that the spec describes. -/
def specSplitEntries : List Char → List (List Char)
  | [] => []
  | c :: cs =>
    if c = '\n' ∧ markerTest cs then (specTake cs).1 :: specSplitEntries cs
    else specSplitEntries cs

/-- Counterexample to C2: on a text with a continuation line, the code's
splitter (`findEntries`) returns bare single-line entries — the
continuation line `    at Stack.trace` is lost, not attached to the
preceding entry as the spec-described splitter (`specSplitEntries`) would
keep it. -/
theorem entry_split_drops_continuations :
    findEntries ("\n[10:00:00] Alex died\n    at Stack.trace\n[10:00:01] Alex was slain").data
      = [("[10:00:00] Alex died").data, ("[10:00:01] Alex was slain").data] ∧
    specSplitEntries ("\n[10:00:00] Alex died\n    at Stack.trace\n[10:00:01] Alex was slain").data
      = [("[10:00:00] Alex died\n    at Stack.trace").data, ("[10:00:01] Alex was slain").data] ∧
    findEntries ("\n[10:00:00] Alex died\n    at Stack.trace\n[10:00:01] Alex was slain").data
      ≠ specSplitEntries ("\n[10:00:00] Alex died\n    at Stack.trace\n[10:00:01] Alex was slain").data :=
  ⟨rfl, rfl, by decide⟩

/-! ### C4: the denylist and the earlier patterns -/

/-- Counterexample to C4 as stated: the entry token `Done` is denylisted
and `DEATH_FORMAT` matches the line, yet classification still returns an
event, because `JOIN_FORMAT` matches first. -/
theorem denylist_claim_counterexample :
    (matchDeath ("[10:00:00] [Server thread/INFO] [net.minecraft.server.dedicated.DedicatedServer]: Done joined the game").data).map (fun pr => String.mk pr.2.1) = some "Done" ∧
    "Done" ∈ NOT_PLAYERS ∧
    classify ("[10:00:00] [Server thread/INFO] [net.minecraft.server.dedicated.DedicatedServer]: Done joined the game").data ⟨2024, 1, 1⟩
      = .ok (some (.playerJoinLeave ⟨⟨2024, 1, 1⟩, ⟨10, 0, 0⟩⟩ "Done" "join")) :=
  ⟨rfl, by decide, rfl⟩

/-- C4 (amended): for every entry that reaches the death fallback (none of
the join, leave, advancement patterns matched) and whose captured leading
token is in `NOT_PLAYERS`, classification returns no event — the entry is
skipped before its time field is even parsed. -/
theorem denylist_suppresses_event (entry : List Char) (d : Date) (t p c : List Char)
    (hj : matchJoin entry = none) (hl : matchLeave entry = none)
    (ha : matchAdv entry = none) (hd : matchDeath entry = some (t, p, c))
    (hmem : String.mk p ∈ NOT_PLAYERS) :
    classify entry d = .ok none := by
  unfold classify
  simp only [hj, hl, ha, hd]
  rw [if_pos hmem]

/-- Witness for C4 (amended): `Done warming up` is skipped. -/
theorem denylist_suppresses_event_witness :
    classify ("[10:00:00] [Server thread/INFO] [net.minecraft.server.dedicated.DedicatedServer]: Done warming up").data ⟨2024, 1, 1⟩ = .ok none :=
  denylist_suppresses_event _ ⟨2024, 1, 1⟩ (("10:00:00").data) (("Done").data)
    (("warming up").data) rfl rfl rfl rfl (by decide)

/-! ### C1: what happens on a malformed time value -/

/-- The `time` group captured by the first pattern that wins for an entry
(`none` when no pattern matches, and in the death branch when the denylist
`continue`s before the time is parsed) — the classifier chain of
`classify`, stopping just before `time.fromisoformat`. -/
def firstPatternTime (entry : List Char) : Option (List Char) :=
  match matchJoin entry with
  | some (t, _) => some t
  | none =>
  match matchLeave entry with
  | some (t, _) => some t
  | none =>
  match matchAdv entry with
  | some (t, _, _) => some t
  | none =>
  match matchDeath entry with
  | some (t, p, _) => if String.mk p ∈ NOT_PLAYERS then none else some t
  | none =>
  match matchMessage entry with
  | some (t, _, _) => some t
  | none => none

/-- Counterexample to C1 as stated: an otherwise well-formed join line with
hour 25 makes `time.fromisoformat` raise `ValueError`; classification
throws instead of rejecting the entry and continuing. -/
theorem malformed_time_throws :
    (matchJoin ("[25:61:61] [Server thread/INFO] [net.minecraft.server.dedicated.DedicatedServer]: Steve joined the game").data).isSome = true ∧
    classify ("[25:61:61] [Server thread/INFO] [net.minecraft.server.dedicated.DedicatedServer]: Steve joined the game").data ⟨2024, 1, 1⟩
      = .error "ValueError" :=
  ⟨rfl, rfl⟩

/-- C1 (amended): for every entry matched by one of the classifier
patterns (with the death fallback's denylist skip excluded, since it
`continue`s first) whose captured time field is not a valid time of day,
classification raises `ValueError`: no event is emitted and the error
propagates, aborting the run instead of continuing. -/
theorem invalid_time_aborts (entry : List Char) (d : Date) (t : List Char)
    (hf : firstPatternTime entry = some t) (ht : timeFromIso t = none) :
    classify entry d = .error "ValueError" := by
  unfold firstPatternTime at hf
  unfold classify
  cases hj : matchJoin entry with
  | some pr =>
    obtain ⟨t0, p0⟩ := pr
    rw [hj] at hf
    dsimp only at hf ⊢
    rw [Option.some.injEq] at hf
    subst hf
    rw [ht]
  | none =>
    rw [hj] at hf
    dsimp only at hf ⊢
    cases hlv : matchLeave entry with
    | some pr =>
      obtain ⟨t0, p0⟩ := pr
      rw [hlv] at hf
      dsimp only at hf ⊢
      rw [Option.some.injEq] at hf
      subst hf
      rw [ht]
    | none =>
      rw [hlv] at hf
      dsimp only at hf ⊢
      cases ha : matchAdv entry with
      | some pr =>
        obtain ⟨t0, p0, a0⟩ := pr
        rw [ha] at hf
        dsimp only at hf ⊢
        rw [Option.some.injEq] at hf
        subst hf
        rw [ht]
      | none =>
        rw [ha] at hf
        dsimp only at hf ⊢
        cases hdth : matchDeath entry with
        | some pr =>
          obtain ⟨t0, p0, c0⟩ := pr
          rw [hdth] at hf
          dsimp only at hf ⊢
          by_cases hmem : String.mk p0 ∈ NOT_PLAYERS
          · rw [if_pos hmem] at hf
            exact absurd hf (by simp)
          · rw [if_neg hmem] at hf
            rw [Option.some.injEq] at hf
            subst hf
            rw [if_neg hmem, ht]
        | none =>
          rw [hdth] at hf
          dsimp only at hf ⊢
          cases hm : matchMessage entry with
          | some pr =>
            obtain ⟨t0, p0, m0⟩ := pr
            rw [hm] at hf
            dsimp only at hf ⊢
            rw [Option.some.injEq] at hf
            subst hf
            rw [ht]
          | none =>
            rw [hm] at hf
            dsimp only at hf
            exact absurd hf (by simp)

/-- Witness for C1 (amended): the hour-25 join line aborts. -/
theorem invalid_time_aborts_witness :
    firstPatternTime ("[25:61:61] [Server thread/INFO] [net.minecraft.server.dedicated.DedicatedServer]: Steve joined the game").data = some (("25:61:61").data) ∧
    timeFromIso (("25:61:61").data) = none ∧
    classify ("[25:61:61] [Server thread/INFO] [net.minecraft.server.dedicated.DedicatedServer]: Steve joined the game").data ⟨2024, 1, 1⟩
      = .error "ValueError" :=
  ⟨rfl, rfl, invalid_time_aborts _ ⟨2024, 1, 1⟩ (("25:61:61").data) rfl rfl⟩

/-! ### The whole-run model: `main()`

`main` lists the configured directory, keeps the filenames fully matching
`LOG_FILENAME_FORMAT`, sorts them, and for each file in order: parses the
date from the filename, decompresses and decodes the file, splits it into
entries, classifies them onto the shared `event_stream`, and then rewrites
all four CSV files from the stream accumulated so far.  The OS interactions
are modelled by explicit records following the documented behaviour of the
Python standard library. -/

/-- Gregorian leap year, as `datetime` computes it. -/
def isLeap (y : Nat) : Bool := (y % 4 == 0 && !(y % 100 == 0)) || y % 400 == 0

def daysInMonth (y m : Nat) : Nat :=
  if m = 2 then (if isLeap y then 29 else 28)
  else if m = 4 ∨ m = 6 ∨ m = 9 ∨ m = 11 then 30 else 31

/-- `datetime.date.fromisoformat` on `YYYY-MM-DD`: validates the shape and
the field ranges (`datetime.MINYEAR = 1`; a four-digit year is at most
9999), raising `ValueError` otherwise. -/
def dateFromIso : List Char → Except String Date
  | [y1, y2, y3, y4, '-', m1, m2, '-', d1, d2] =>
    if y1.isDigit ∧ y2.isDigit ∧ y3.isDigit ∧ y4.isDigit ∧ m1.isDigit ∧ m2.isDigit ∧
        d1.isDigit ∧ d2.isDigit then
      let y := 1000 * digitVal y1 + 100 * digitVal y2 + 10 * digitVal y3 + digitVal y4
      let m := 10 * digitVal m1 + digitVal m2
      let d := 10 * digitVal d1 + digitVal d2
      if 1 ≤ y ∧ 1 ≤ m ∧ m ≤ 12 ∧ 1 ≤ d ∧ d ≤ daysInMonth y m then .ok ⟨y, m, d⟩
      else .error "ValueError"
    else .error "ValueError"
  | _ => .error "ValueError"

def litLogGz : List Char := (".log.gz").data

/-- `LOG_FILENAME_FORMAT.fullmatch(name)`, returning the `date` group:
`(?P<date>\d{4}\-\d{2}-\d{2})-\d+\.log\.gz` anchored at both ends.  `\d+`
is greedy and a digit can never match the following `\.`, so it is the
maximal nonempty digit run, and `fullmatch` forces the remainder to be
exactly `.log.gz`. -/
def fullmatchFilename (s : String) : Option (List Char) :=
  match s.data with
  | y1 :: y2 :: y3 :: y4 :: '-' :: m1 :: m2 :: '-' :: d1 :: d2 :: rest =>
    if y1.isDigit ∧ y2.isDigit ∧ y3.isDigit ∧ y4.isDigit ∧ m1.isDigit ∧ m2.isDigit ∧
        d1.isDigit ∧ d2.isDigit then
      match rest with
      | '-' :: rest2 =>
        if 1 ≤ (rest2.takeWhile Char.isDigit).length ∧ rest2.dropWhile Char.isDigit = litLogGz
        then some [y1, y2, y3, y4, '-', m1, m2, '-', d1, d2]
        else none
      | _ => none
    else none
  | _ => none

/-- The observable file-system state the script reads. -/
structure FileSys where
  cwdListing : List String
  dirs : String → Option (List String)
  files : String → Option String

/-- `os.listdir(LOG_DIRECTORY)`.  With `LOG_DIRECTORY` unset,
`os.environ.get` yields `None`, and CPython's `os.listdir(None)` lists the
*current working directory* (a `None` path is treated as `'.'`); with a
path that names no existing directory it raises `FileNotFoundError`. -/
def listdir (fs : FileSys) : Option String → Except String (List String)
  | none => .ok fs.cwdListing
  | some d =>
    match fs.dirs d with
    | some names => .ok names
    | none => .error "FileNotFoundError"

/-- `os.path.join(LOG_DIRECTORY, filename)`: joining onto `None` raises
`TypeError`. -/
def pathJoin : Option String → String → Except String String
  | none, _ => .error "TypeError"
  | some d, f => .ok (d ++ "/" ++ f)

/-- `gzip.open(path)` / `.read().decode('utf-8')`: the decompressed,
decoded text at a path; a missing file raises. -/
def readFile (fs : FileSys) (path : String) : Except String String :=
  match fs.files path with
  | some content => .ok content
  | none => .error "FileNotFoundError"

/-! ### `sorted(...)`: Python string order -/

/-- Python string `<`: lexicographic comparison by code point. -/
def lexLt : List Char → List Char → Bool
  | [], [] => false
  | [], _ :: _ => true
  | _ :: _, [] => false
  | a :: as, b :: bs => if a = b then lexLt as bs else decide (a < b)

def lexLe (a b : List Char) : Bool := !(lexLt b a)

def insertSorted (x : String) : List String → List String
  | [] => [x]
  | y :: ys => if lexLe x.data y.data then x :: y :: ys else y :: insertSorted x ys

/-- `sorted(...)` on filenames (insertion sort; every comparison sort
agrees with it up to the order of equal keys, and directory listings have
no duplicate names). -/
def sortStrings : List String → List String
  | [] => []
  | x :: xs => insertSorted x (sortStrings xs)

/-! ### Event accumulation and CSV export -/

/-- The per-entry classification loop over one file's entries (the events
the file contributes to `event_stream`, in entry order); a `ValueError`
from a malformed time aborts. -/
def accumulate (d : Date) : List (List Char) → Except String (List LogEvent)
  | [] => .ok []
  | e :: es =>
    match classify e d with
    | .error msg => .error msg
    | .ok r =>
      match accumulate d es with
      | .error msg => .error msg
      | .ok rest => .ok (match r with | some ev => ev :: rest | none => rest)

inductive EventKind where
  | joinLeave | advancement | death | message
deriving DecidableEq

/-- `CSV_FILES`: output filename and row type per table. -/
def CSV_FILES : List (String × EventKind) :=
  [("joins_leaves.csv", .joinLeave), ("advancements.csv", .advancement),
   ("deaths.csv", .death), ("messages.csv", .message)]

def kindOf : LogEvent → EventKind
  | .playerJoinLeave _ _ _ => .joinLeave
  | .playerAdvancement _ _ _ => .advancement
  | .playerDeath _ _ _ => .death
  | .playerMessage _ _ _ => .message

/-- `type(r) is entry_type`. -/
def typeIs (k : EventKind) (e : LogEvent) : Bool := kindOf e == k

/-- `entry_type._fields`. -/
def headerOf : EventKind → List String
  | .joinLeave => ["time", "player", "type"]
  | .advancement => ["time", "player", "advancement"]
  | .death => ["time", "player", "cause"]
  | .message => ["time", "player", "message"]

def pad2 (n : Nat) : String := (if n < 10 then "0" else "") ++ toString n

def pad4 (n : Nat) : String :=
  (if n < 10 then "000" else if n < 100 then "00" else if n < 1000 then "0" else "") ++ toString n

/-- `str(datetime)`: `YYYY-MM-DD HH:MM:SS` (no microseconds here). -/
def strOfDateTime (dt : DateTime) : String :=
  pad4 dt.date.year ++ "-" ++ pad2 dt.date.month ++ "-" ++ pad2 dt.date.day ++ " " ++
    pad2 dt.time.hour ++ ":" ++ pad2 dt.time.minute ++ ":" ++ pad2 dt.time.second

/-- The row `csv.writer` writes for an event: `str()` of each tuple field. -/
def fieldsOf : LogEvent → List String
  | .playerJoinLeave t p ty => [strOfDateTime t, p, ty]
  | .playerAdvancement t p a => [strOfDateTime t, p, a]
  | .playerDeath t p c => [strOfDateTime t, p, c]
  | .playerMessage t p m => [strOfDateTime t, p, m]

/-- `csv.writer` default dialect (QUOTE_MINIMAL): a field is quoted iff it
contains the delimiter, the quote character, or a line-terminator
character. -/
def csvNeedsQuote (s : String) : Bool :=
  s.data.any (fun c => c == ',' || c == '"' || c == '\r' || c == '\n')

def csvEscape (s : String) : String :=
  String.mk ('"' :: s.data.foldr (fun c acc => if c = '"' then '"' :: '"' :: acc else c :: acc) ['"'])

def csvField (s : String) : String := if csvNeedsQuote s then csvEscape s else s

/-- One CSV record with the default `\r\n` terminator. -/
def csvRow (fields : List String) : String :=
  String.intercalate "," (fields.map csvField) ++ "\r\n"

def csvTable (rows : List (List String)) : String := String.join (rows.map csvRow)

/-- The full contents written to one of the four CSVs: header row, then
the stream filtered to that row type, in order. -/
def csvContentFor (k : EventKind) (stream : List LogEvent) : String :=
  csvTable (headerOf k :: (stream.filter (typeIs k)).map fieldsOf)

/-- The output side effects: the `output` directory flag and the file
contents at each path. -/
@[ext] structure OutState where
  outputDirExists : Bool
  files : String → Option String

/-- `open(..., 'w')` + write: overwrites whatever was at the path. -/
def writeOut (path : String) (content : String) (o : OutState) : OutState :=
  { o with files := fun q => if q = path then some content else o.files q }

/-- `if not os.path.exists('output'): os.mkdir('output')`. -/
def ensureOutputDir (o : OutState) : OutState :=
  if o.outputDirExists then o else { o with outputDirExists := true }

/-- Lines 121–136 of `main.py`: ensure the output directory and rewrite
all four CSV files from the event stream accumulated so far. -/
def exportAll (stream : List LogEvent) (o : OutState) : OutState :=
  CSV_FILES.foldl
    (fun acc pr => writeOut ("output/" ++ pr.1) (csvContentFor pr.2 stream) acc)
    (ensureOutputDir o)

/-- The body of the per-file loop for one file: filename date, decompress,
split, classify. -/
def eventsOfFile (logDir : Option String) (fs : FileSys) (filename : String) :
    Except String (List LogEvent) :=
  match fullmatchFilename filename with
  | none => .error "AttributeError"
  | some ds =>
    match dateFromIso ds with
    | .error e => .error e
    | .ok d =>
      match pathJoin logDir filename with
      | .error e => .error e
      | .ok path =>
        match readFile fs path with
        | .error e => .error e
        | .ok content => accumulate d (findEntries content.data)

/-- The per-file loop of `main()`: append each file's events to the shared
`event_stream` and re-export all CSVs after every file. -/
def runLoop (logDir : Option String) (fs : FileSys) :
    List String → List LogEvent → OutState → Except String (List LogEvent × OutState)
  | [], stream, out => .ok (stream, out)
  | f :: rest, stream, out =>
    match eventsOfFile logDir fs f with
    | .error e => .error e
    | .ok evs => runLoop logDir fs rest (stream ++ evs) (exportAll (stream ++ evs) out)

/-- `sorted(filter(lambda x: LOG_FILENAME_FORMAT.fullmatch(x), log_files))`. -/
def selectedFiles (names : List String) : List String :=
  sortStrings (names.filter (fun n => (fullmatchFilename n).isSome))

/-- `main()`: list the log directory, select and sort the sources, run the
loop. -/
def mainModel (logDir : Option String) (fs : FileSys) (out0 : OutState) :
    Except String OutState :=
  match listdir fs logDir with
  | .error e => .error e
  | .ok names =>
    match runLoop logDir fs (selectedFiles names) [] out0 with
    | .error e => .error e
    | .ok pr => .ok pr.2

/-! ### C10: no matching source files means no output at all -/

/-- Helper: when the directory listing succeeds but no name fully matches
the filename pattern, the loop body never runs and the output state is
returned untouched. -/
theorem mainModel_ok_of_no_matching (logDir : Option String) (fs : FileSys) (o : OutState)
    (names : List String) (hls : listdir fs logDir = .ok names)
    (hfilt : names.filter (fun n => (fullmatchFilename n).isSome) = []) :
    mainModel logDir fs o = .ok o := by
  unfold mainModel
  rw [hls]
  dsimp only
  unfold selectedFiles
  rw [hfilt]
  rfl

/-- C10: if no filename in the input directory fully matches
`YYYY-MM-DD-N.log.gz`, the program performs no output at all — the output
directory is never created and none of the four tabular files is written
(the final output state equals the initial one), because the export step
only executes inside the per-source loop. -/
theorem no_sources_no_output (logDir : Option String) (fs : FileSys) (o : OutState)
    (names : List String) (hls : listdir fs logDir = .ok names)
    (hfilt : names.filter (fun n => (fullmatchFilename n).isSome) = []) :
    mainModel logDir fs o = .ok o :=
  mainModel_ok_of_no_matching logDir fs o names hls hfilt

def emptyOut : OutState := ⟨false, fun _ => none⟩

def c10fs : FileSys := ⟨["notes.txt", "latest.log"], fun _ => none, fun _ => none⟩

/-- Witness for C10: a directory with only non-matching names leaves the
output state untouched. -/
theorem no_sources_no_output_witness :
    listdir c10fs none = .ok ["notes.txt", "latest.log"] ∧
    (["notes.txt", "latest.log"].filter (fun n => (fullmatchFilename n).isSome)) = [] ∧
    mainModel none c10fs emptyOut = .ok emptyOut :=
  ⟨rfl, rfl, no_sources_no_output none c10fs emptyOut ["notes.txt", "latest.log"] rfl rfl⟩

/-! ### C3: configuration errors -/

def c3fs : FileSys := ⟨[], fun _ => none, fun _ => none⟩

/-- Counterexample to C3 as stated: with `LOG_DIRECTORY` unset the run
does *not* fail — `os.listdir(None)` lists the current working directory,
and (here, with no matching files in it) the run completes successfully,
so an unset input directory is not surfaced as a fatal configuration
error. -/
theorem unset_log_directory_not_fatal :
    mainModel none c3fs emptyOut = .ok emptyOut := rfl

/-- C3 (amended): a configured directory that does not exist is a fatal
error surfaced immediately by `os.listdir`, before any event is
accumulated or any output written; but an *unset* `LOG_DIRECTORY` is not
an error: the current working directory is listed instead, and when it
contains no matching filename the run completes with no output. -/
theorem config_error_behavior (d : String) (fs : FileSys) (o : OutState)
    (hmissing : fs.dirs d = none)
    (hempty : fs.cwdListing.filter (fun n => (fullmatchFilename n).isSome) = []) :
    mainModel (some d) fs o = .error "FileNotFoundError" ∧ mainModel none fs o = .ok o := by
  constructor
  · unfold mainModel listdir
    dsimp only
    rw [hmissing]
  · exact mainModel_ok_of_no_matching none fs o fs.cwdListing rfl hempty

/-- Witness for C3 (amended). -/
theorem config_error_behavior_witness :
    mainModel (some "logs") c3fs emptyOut = .error "FileNotFoundError" ∧
    mainModel none c3fs emptyOut = .ok emptyOut :=
  config_error_behavior "logs" c3fs emptyOut rfl rfl

/-! ### C8: exporting is idempotent -/

/-- C8: re-running the export on the same event stream overwrites every
destination with byte-identical contents — exporting twice equals
exporting once, whatever the starting output state. -/
theorem export_idempotent (stream : List LogEvent) (o : OutState) :
    exportAll stream (exportAll stream o) = exportAll stream o := by
  unfold exportAll
  simp only [CSV_FILES, List.foldl]
  apply OutState.ext
  · by_cases ho : o.outputDirExists <;> simp [writeOut, ensureOutputDir, ho]
  · funext q
    by_cases h1 : q = "output/joins_leaves.csv" <;>
      by_cases h2 : q = "output/advancements.csv" <;>
        by_cases h3 : q = "output/deaths.csv" <;>
          by_cases h4 : q = "output/messages.csv" <;>
            by_cases ho : o.outputDirExists <;>
              simp [writeOut, ensureOutputDir, ho, h1, h2, h3, h4]

/-! ### C7: order facts about `lexLt` and `sortStrings` -/

theorem lexLt_irrefl (l : List Char) : lexLt l l = false := by
  induction l with
  | nil => rfl
  | cons c cs ih => simp [lexLt, ih]

theorem lexLt_asymm (a b : List Char) (h : lexLt a b = true) : lexLt b a = false := by
  induction a generalizing b with
  | nil =>
    cases b with
    | nil => simp [lexLt] at h
    | cons c bs => simp [lexLt]
  | cons c as ih =>
    cases b with
    | nil => simp [lexLt] at h
    | cons d bs =>
      by_cases hcd : c = d
      · subst hcd
        simp only [lexLt, if_pos rfl] at h ⊢
        exact ih bs h
      · have hlt : c < d := by simpa [lexLt, hcd] using h
        have hdc : ¬ d = c := fun hh => hcd hh.symm
        simp [lexLt, hdc, lt_asymm hlt]

theorem lexLt_eq_of_not (a b : List Char) (h1 : lexLt a b = false) (h2 : lexLt b a = false) :
    a = b := by
  induction a generalizing b with
  | nil =>
    cases b with
    | nil => rfl
    | cons c bs => simp [lexLt] at h1
  | cons c as ih =>
    cases b with
    | nil => simp [lexLt] at h2
    | cons d bs =>
      by_cases hcd : c = d
      · subst hcd
        simp only [lexLt, if_pos rfl] at h1 h2
        rw [ih bs h1 h2]
      · have hdc : ¬ d = c := fun hh => hcd hh.symm
        simp only [lexLt, if_neg hcd] at h1
        simp only [lexLt, if_neg hdc] at h2
        exact absurd (le_antisymm (not_lt.mp (by simpa using h2)) (not_lt.mp (by simpa using h1))) hcd

theorem lexLt_trans (a b c : List Char) (h1 : lexLt a b = true) (h2 : lexLt b c = true) :
    lexLt a c = true := by
  induction a generalizing b c with
  | nil =>
    cases c with
    | nil =>
      cases b with
      | nil => simp [lexLt] at h1
      | cons y bs => simp [lexLt] at h2
    | cons z cs => simp [lexLt]
  | cons x as ih =>
    cases b with
    | nil => simp [lexLt] at h1
    | cons y bs =>
      cases c with
      | nil => simp [lexLt] at h2
      | cons z cs =>
        by_cases hxy : x = y <;> by_cases hyz : y = z
        · subst hxy; subst hyz
          simp only [lexLt, if_pos rfl] at h1 h2 ⊢
          exact ih bs cs h1 h2
        · subst hxy
          have hlt : x < z := by simpa [lexLt, hyz] using h2
          simp [lexLt, ne_of_lt hlt, hlt]
        · subst hyz
          have hlt : x < y := by simpa [lexLt, hxy] using h1
          simp [lexLt, ne_of_lt hlt, hlt]
        · have hlt1 : x < y := by simpa [lexLt, hxy] using h1
          have hlt2 : y < z := by simpa [lexLt, hyz] using h2
          have hlt : x < z := lt_trans hlt1 hlt2
          simp [lexLt, ne_of_lt hlt, hlt]

theorem lexLe_of_not_lexLe (a b : List Char) (h : ¬ lexLe a b = true) : lexLe b a = true := by
  simp only [lexLe, Bool.not_eq_true'] at h ⊢
  rw [Bool.not_eq_false] at h
  exact lexLt_asymm b a h

theorem lexLe_trans (a b c : List Char) (h1 : lexLe a b = true) (h2 : lexLe b c = true) :
    lexLe a c = true := by
  simp only [lexLe, Bool.not_eq_true'] at h1 h2 ⊢
  by_contra hne
  rw [Bool.not_eq_false] at hne
  cases hbc : lexLt b c with
  | true =>
    have htr := lexLt_trans b c a hbc hne
    rw [h1] at htr
    exact Bool.false_ne_true htr
  | false =>
    have hcb : b = c := lexLt_eq_of_not b c hbc h2
    subst hcb
    rw [hne] at h1
    simp at h1

theorem mem_insertSorted (x y : String) (l : List String) :
    y ∈ insertSorted x l ↔ y = x ∨ y ∈ l := by
  induction l with
  | nil => simp [insertSorted]
  | cons z zs ih =>
    by_cases h : lexLe x.data z.data = true
    · simp [insertSorted, h]
    · simp only [insertSorted, if_neg h, List.mem_cons, ih]
      tauto

theorem mem_sortStrings (y : String) (l : List String) : y ∈ sortStrings l ↔ y ∈ l := by
  induction l with
  | nil => simp [sortStrings]
  | cons x xs ih => simp [sortStrings, mem_insertSorted, ih]

theorem pairwise_insertSorted (x : String) (l : List String)
    (hp : l.Pairwise (fun a b => lexLe a.data b.data = true)) :
    (insertSorted x l).Pairwise (fun a b => lexLe a.data b.data = true) := by
  induction l with
  | nil => simp [insertSorted]
  | cons z zs ih =>
    rcases List.pairwise_cons.mp hp with ⟨hz, hzs⟩
    by_cases h : lexLe x.data z.data = true
    · simp only [insertSorted, if_pos h]
      refine List.pairwise_cons.mpr ⟨?_, hp⟩
      intro y hy
      rcases List.mem_cons.mp hy with rfl | hy'
      · exact h
      · exact lexLe_trans x.data z.data y.data h (hz y hy')
    · simp only [insertSorted, if_neg h]
      refine List.pairwise_cons.mpr ⟨?_, ih hzs⟩
      intro y hy
      rcases (mem_insertSorted x y zs).mp hy with hyx | hy'
      · subst hyx
        exact lexLe_of_not_lexLe y.data z.data h
      · exact hz y hy'

theorem pairwise_sortStrings (l : List String) :
    (sortStrings l).Pairwise (fun a b => lexLe a.data b.data = true) := by
  induction l with
  | nil => simp [sortStrings]
  | cons x xs ih => exact pairwise_insertSorted x (sortStrings xs) ih

/-- In a `lexLe`-sorted list, an element strictly below another splits the
list with the smaller element first. -/
theorem pairwise_split (l : List String) (f g : String)
    (hp : l.Pairwise (fun a b => lexLe a.data b.data = true))
    (hf : f ∈ l) (hg : g ∈ l) (hlt : lexLt f.data g.data = true) :
    ∃ l1 l2 l3, l = l1 ++ f :: (l2 ++ g :: l3) := by
  induction l with
  | nil => cases hf
  | cons x xs ih =>
    rcases List.pairwise_cons.mp hp with ⟨hx, hxs⟩
    have hfg : f ≠ g := by
      intro hEq
      rw [hEq, lexLt_irrefl] at hlt
      exact Bool.false_ne_true hlt
    by_cases hxf : x = f
    · subst hxf
      have hgxs : g ∈ xs := by
        rcases List.mem_cons.mp hg with hgx | h
        · exact absurd hgx.symm hfg
        · exact h
      rcases List.append_of_mem hgxs with ⟨l2, l3, rfl⟩
      exact ⟨[], l2, l3, rfl⟩
    · have hfxs : f ∈ xs := by
        rcases List.mem_cons.mp hf with hfx | h
        · exact absurd hfx.symm hxf
        · exact h
      have hgxs : g ∈ xs := by
        rcases List.mem_cons.mp hg with hgx | h
        · exfalso
          subst hgx
          have hle := hx f hfxs
          simp only [lexLe, Bool.not_eq_true'] at hle
          rw [hlt] at hle
          simp at hle
        · exact h
      rcases ih hxs hfxs hgxs with ⟨l1, l2, l3, rfl⟩
      exact ⟨x :: l1, l2, l3, rfl⟩

/-- Dates of equal length: a strict date order forces the strict filename
order whatever follows. -/
theorem lexLt_append (d1 d2 r1 r2 : List Char) (hlen : d1.length = d2.length)
    (h : lexLt d1 d2 = true) : lexLt (d1 ++ r1) (d2 ++ r2) = true := by
  induction d1 generalizing d2 with
  | nil =>
    cases d2 with
    | nil => simp [lexLt] at h
    | cons b bs => simp at hlen
  | cons a as ih =>
    cases d2 with
    | nil => simp at hlen
    | cons b bs =>
      by_cases hab : a = b
      · subst hab
        simp only [lexLt, if_pos rfl, List.cons_append] at h ⊢
        exact ih bs (by simpa using hlen) h
      · simp only [lexLt, if_neg hab, List.cons_append] at h ⊢
        exact h

/-- A successful `fullmatch` captures the first ten characters of the
filename as the date. -/
theorem fullmatchFilename_prefix (s : String) (ds : List Char)
    (h : fullmatchFilename s = some ds) :
    ds.length = 10 ∧ ∃ r, s.data = ds ++ r := by
  unfold fullmatchFilename at h
  split at h
  next y1 y2 y3 y4 m1 m2 d1 d2 rest heq =>
    split at h
    · split at h
      next rest2 heq2 =>
        split at h
        · rw [Option.some.injEq] at h
          subst h
          exact ⟨rfl, _, heq⟩
        · cases h
      next => cases h
    · cases h
  next => cases h

/-! ### Decomposing the per-file loop -/

theorem runLoop_append (logDir : Option String) (fs : FileSys) (xs ys : List String)
    (s : List LogEvent) (o : OutState) :
    runLoop logDir fs (xs ++ ys) s o =
      match runLoop logDir fs xs s o with
      | .error e => .error e
      | .ok pr => runLoop logDir fs ys pr.1 pr.2 := by
  induction xs generalizing s o with
  | nil => rfl
  | cons f rest ih =>
    simp only [List.cons_append, runLoop]
    cases hev : eventsOfFile logDir fs f with
    | error e => rfl
    | ok evs => exact ih _ _

theorem runLoop_stream_mono (logDir : Option String) (fs : FileSys) (l : List String)
    (s : List LogEvent) (o : OutState) (st : List LogEvent) (o2 : OutState)
    (h : runLoop logDir fs l s o = .ok (st, o2)) : ∃ tail, st = s ++ tail := by
  induction l generalizing s o with
  | nil =>
    simp only [runLoop, Except.ok.injEq, Prod.mk.injEq] at h
    exact ⟨[], by rw [← h.1, List.append_nil]⟩
  | cons f rest ih =>
    simp only [runLoop] at h
    cases hev : eventsOfFile logDir fs f with
    | error e => rw [hev] at h; cases h
    | ok evs =>
      rw [hev] at h
      rcases ih _ _ h with ⟨tail, htail⟩
      exact ⟨evs ++ tail, by rw [htail, List.append_assoc]⟩

theorem runLoop_cons_ok (logDir : Option String) (fs : FileSys) (f : String)
    (rest : List String) (s : List LogEvent) (o : OutState) (st : List LogEvent)
    (o2 : OutState) (h : runLoop logDir fs (f :: rest) s o = .ok (st, o2)) :
    ∃ evs, eventsOfFile logDir fs f = .ok evs ∧
      runLoop logDir fs rest (s ++ evs) (exportAll (s ++ evs) o) = .ok (st, o2) := by
  simp only [runLoop] at h
  cases hev : eventsOfFile logDir fs f with
  | error e => rw [hev] at h; cases h
  | ok evs => rw [hev] at h; exact ⟨evs, rfl, h⟩

/-- C7: in a successful run, for any two selected sources whose filename
dates differ, every event contributed by the earlier-dated source strictly
precedes every event contributed by the later-dated source in the
accumulated event stream (the sources are processed in sorted filename
order, and the zero-padded date is the filename's first ten characters, so
filename order refines date order). -/
theorem events_ordered_by_date (logDir : Option String) (fs : FileSys)
    (names : List String) (o : OutState) (stream : List LogEvent) (f g : String)
    (df dg : List Char)
    (hrun : (runLoop logDir fs (selectedFiles names) [] o).map Prod.fst = .ok stream)
    (hf : f ∈ names) (hg : g ∈ names)
    (hdf : fullmatchFilename f = some df) (hdg : fullmatchFilename g = some dg)
    (hlt : lexLt df dg = true) :
    ∃ ef eg pre mid post,
      eventsOfFile logDir fs f = .ok ef ∧ eventsOfFile logDir fs g = .ok eg ∧
      stream = pre ++ ef ++ (mid ++ (eg ++ post)) := by
  cases hr : runLoop logDir fs (selectedFiles names) [] o with
  | error e => rw [hr] at hrun; cases hrun
  | ok pr =>
    rw [hr] at hrun
    obtain ⟨st, oF⟩ := pr
    have hst : st = stream := by simpa [Except.map] using hrun
    subst hst
    have hfin : f ∈ selectedFiles names := by
      unfold selectedFiles
      rw [mem_sortStrings]
      exact List.mem_filter.mpr ⟨hf, by simp [hdf]⟩
    have hgin : g ∈ selectedFiles names := by
      unfold selectedFiles
      rw [mem_sortStrings]
      exact List.mem_filter.mpr ⟨hg, by simp [hdg]⟩
    have hnameslt : lexLt f.data g.data = true := by
      obtain ⟨hlenf, rf, hsf⟩ := fullmatchFilename_prefix f df hdf
      obtain ⟨hleng, rg, hsg⟩ := fullmatchFilename_prefix g dg hdg
      rw [hsf, hsg]
      exact lexLt_append df dg rf rg (by rw [hlenf, hleng]) hlt
    obtain ⟨l1, l2, l3, hsplit⟩ :=
      pairwise_split (selectedFiles names) f g (pairwise_sortStrings _) hfin hgin hnameslt
    rw [hsplit, runLoop_append] at hr
    cases h1 : runLoop logDir fs l1 [] o with
    | error e => rw [h1] at hr; cases hr
    | ok pr1 =>
      rw [h1] at hr
      obtain ⟨s1, o1⟩ := pr1
      obtain ⟨ef, hef, hr2⟩ := runLoop_cons_ok logDir fs f (l2 ++ g :: l3) s1 o1 _ _ hr
      rw [runLoop_append] at hr2
      cases h2 : runLoop logDir fs l2 (s1 ++ ef) (exportAll (s1 ++ ef) o1) with
      | error e => rw [h2] at hr2; cases hr2
      | ok pr2 =>
        rw [h2] at hr2
        obtain ⟨s2, o2⟩ := pr2
        obtain ⟨mid, hmid⟩ := runLoop_stream_mono logDir fs l2 (s1 ++ ef) _ s2 o2 h2
        obtain ⟨eg, heg, hr3⟩ := runLoop_cons_ok logDir fs g l3 s2 o2 _ _ hr2
        obtain ⟨post, hpost⟩ := runLoop_stream_mono logDir fs l3 (s2 ++ eg) _ st oF hr3
        refine ⟨ef, eg, s1, mid, post, hef, heg, ?_⟩
        rw [hpost, hmid]
        simp [List.append_assoc]

def c7fs : FileSys :=
  ⟨[],
   fun q => if q = "logs" then some ["2024-01-02-1.log.gz", "2024-01-01-1.log.gz"] else none,
   fun q =>
     if q = "logs/2024-01-01-1.log.gz" then
       some ("boot\n[10:00:00] [Server thread/INFO] [net.minecraft.server.dedicated.DedicatedServer]: Alice joined the game")
     else if q = "logs/2024-01-02-1.log.gz" then
       some ("boot\n[09:30:00] [Server thread/INFO] [net.minecraft.server.dedicated.DedicatedServer]: Bob joined the game")
     else none⟩

/-- Witness for C7: two one-event sources with different dates, listed in
reverse order; the earlier-dated file's event comes first in the stream. -/
theorem events_ordered_by_date_witness :
    ∃ ef eg pre mid post,
      eventsOfFile (some "logs") c7fs "2024-01-01-1.log.gz" = .ok ef ∧
      eventsOfFile (some "logs") c7fs "2024-01-02-1.log.gz" = .ok eg ∧
      [LogEvent.playerJoinLeave ⟨⟨2024, 1, 1⟩, ⟨10, 0, 0⟩⟩ "Alice" "join",
       LogEvent.playerJoinLeave ⟨⟨2024, 1, 2⟩, ⟨9, 30, 0⟩⟩ "Bob" "join"]
        = pre ++ ef ++ (mid ++ (eg ++ post)) :=
  events_ordered_by_date (some "logs") c7fs ["2024-01-02-1.log.gz", "2024-01-01-1.log.gz"]
    emptyOut
    [LogEvent.playerJoinLeave ⟨⟨2024, 1, 1⟩, ⟨10, 0, 0⟩⟩ "Alice" "join",
     LogEvent.playerJoinLeave ⟨⟨2024, 1, 2⟩, ⟨9, 30, 0⟩⟩ "Bob" "join"]
    "2024-01-01-1.log.gz" "2024-01-02-1.log.gz"
    (("2024-01-01").data) (("2024-01-02").data)
    rfl (by simp) (by simp) rfl rfl rfl

end MC
